import Mathlib

/-!
Verification of the scene-timing and soundscape logic of the "Summit of Dawn"
cinematic web experience.

The core logic lives in `src/app/components/CinematicExperience.tsx`
(`getSceneState`, the per-frame clock `step`, the transport handlers) and
`src/app/components/SoundscapeController.tsx` (gain-target computation).
JavaScript numbers are modelled as rationals (`ℚ`); the transcendental
`Math.sin` is abstracted as an explicit parameter where it occurs.
-/

/-- The tone of a scene, from `SceneDescriptor["tone"]` in
`src/app/lib/scenes.ts` as used throughout the components:
one of `"cold" | "transition" | "warm"`. -/
inductive Tone where
  | cold
  | transition
  | warm
deriving DecidableEq, Repr

/-- A scene descriptor. The fields used by the timing and audio logic are
`id`, `tone` and `duration`; the purely presentational display strings
(`label`, `description`, `camera`, `visualCue`, `audioCue`) are omitted,
as no claim mentions them. -/
structure SceneDescriptor where
  id : String
  tone : Tone
  duration : ℚ
deriving DecidableEq, Repr

/-- The `SceneState` record returned by `getSceneState`
(`CinematicExperience.tsx`, lines 10-15).  The index is an integer because
for an empty catalog the source's fallback returns
`SCENE_SEQUENCE.length - 1 = -1`. -/
structure SceneState where
  index : ℤ
  sceneElapsed : ℚ
  totalElapsed : ℚ
  progress : ℚ
deriving DecidableEq, Repr

/-- Modelled from the spec: `src/app/lib/scenes.ts` is not part of the
provided sources (only its importers and tests are), so the published total
duration constant `TOTAL_DURATION_SECONDS` is taken from the spec and the
test `expect(TOTAL_DURATION_SECONDS).toBe(60)`. -/
def TOTAL_DURATION_SECONDS : ℚ := 60

/-- Modelled from the spec: `src/app/lib/scenes.ts` is not part of the
provided sources, so the catalog is reconstructed from the spec's data
model: an ordered, fixed list of 8 scene descriptors with positive
durations summing to 60, ids including `"ascent"` and `"summit"`, and
tones progressing from cold predawn to warm summit.  The exact id strings
(other than `"ascent"` and `"summit"`) and the individual durations are
representative choices consistent with the spec. -/
def SCENE_SEQUENCE : List SceneDescriptor :=
  [ { id := "predawn", tone := .cold, duration := 7 },
    { id := "alpenglow", tone := .cold, duration := 7 },
    { id := "traverse", tone := .transition, duration := 8 },
    { id := "ascent", tone := .transition, duration := 8 },
    { id := "crevasse", tone := .transition, duration := 7 },
    { id := "final-push", tone := .warm, duration := 8 },
    { id := "summit", tone := .warm, duration := 8 },
    { id := "triumph", tone := .warm, duration := 7 } ]

/-- The `clamped` value of `getSceneState` (`CinematicExperience.tsx`,
line 35): `Math.min(Math.max(elapsed - start, 0), scene.duration)`. -/
def clampedElapsed (elapsed start duration : ℚ) : ℚ :=
  min (max (elapsed - start) 0) duration

/-- The loop of `getSceneState` (`CinematicExperience.tsx`, lines 29-45):
walk the scene list accumulating start offsets; return the first scene
whose cumulative end exceeds `elapsed`, or the last scene.  `index` is the
loop counter and `accumulator` the cumulative start offset; `none` means
the loop ran off the end of the list (only possible for an empty list). -/
def getSceneStateLoop (elapsed : ℚ) :
    List SceneDescriptor → ℤ → ℚ → Option SceneState
  | [], _, _ => none
  | scene :: rest, index, accumulator =>
      if elapsed < accumulator + scene.duration ∨ rest = [] then
        some { index := index
               sceneElapsed := clampedElapsed elapsed accumulator scene.duration
               totalElapsed := elapsed
               progress :=
                 if 0 < scene.duration then
                   clampedElapsed elapsed accumulator scene.duration / scene.duration
                 else 0 }
      else
        getSceneStateLoop elapsed rest (index + 1) (accumulator + scene.duration)

/-- `getSceneState` from `CinematicExperience.tsx`, lines 28-52, generalized
over the scene list it walks (the source reads the global `SCENE_SEQUENCE`).
The default value is the source's fallback return (lines 46-51), reachable
only when the list is empty. -/
def getSceneState (scenes : List SceneDescriptor) (elapsed : ℚ) : SceneState :=
  (getSceneStateLoop elapsed scenes 0 0).getD
    { index := (scenes.length : ℤ) - 1
      sceneElapsed := ((scenes.getLast?).map SceneDescriptor.duration).getD 0
      totalElapsed := elapsed
      progress := 1 }

/-- Cumulative end offset of scene `i`: the sum of the durations of scenes
`0..i` inclusive.  This is the `end` value the loop of `getSceneState`
compares `elapsed` against. -/
def cumulativeEnd (scenes : List SceneDescriptor) (i : ℕ) : ℚ :=
  ((scenes.take (i + 1)).map SceneDescriptor.duration).sum

/-- The playback phase enum `PlaybackState` (`CinematicExperience.tsx`,
line 8). -/
inductive PlaybackState where
  | idle
  | running
  | complete
deriving DecidableEq, Repr

/-- The playback-relevant component state: `playbackState` and `elapsed`
(`CinematicExperience.tsx`, lines 55-56). -/
structure PlaybackModel where
  phase : PlaybackState
  elapsed : ℚ
deriving DecidableEq, Repr

/-- One invocation of the per-frame `step` callback
(`CinematicExperience.tsx`, lines 74-90) with a given time delta in
seconds: the functional `setElapsed` update clamps
`previousElapsed + delta` to at most `TOTAL_DURATION_SECONDS`, and the
phase is set to `complete` when the new elapsed reaches the total. -/
def stepClock (m : PlaybackModel) (delta : ℚ) : PlaybackModel :=
  let next := min (m.elapsed + delta) TOTAL_DURATION_SECONDS
  { phase := if TOTAL_DURATION_SECONDS ≤ next then .complete else m.phase
    elapsed := next }

/-- `handleStart` (`CinematicExperience.tsx`, lines 111-114): reset
`elapsed` to 0 and set the phase to `running`. -/
def handleStart (_ : PlaybackModel) : PlaybackModel :=
  { phase := .running, elapsed := 0 }

/-- `handleReplay` (`CinematicExperience.tsx`, lines 116-119): identical to
`handleStart`. -/
def handleReplay (_ : PlaybackModel) : PlaybackModel :=
  { phase := .running, elapsed := 0 }

/-- `handlePauseToggle` (`CinematicExperience.tsx`, lines 121-127):
`running → idle`; `idle → running` only while `elapsed` is below the total
duration; otherwise (including phase `complete`) the state is unchanged. -/
def handlePauseToggle (m : PlaybackModel) : PlaybackModel :=
  if m.phase = .running then
    { m with phase := .idle }
  else if m.phase = .idle ∧ m.elapsed < TOTAL_DURATION_SECONDS then
    { m with phase := .running }
  else
    m

/-- The per-tone gain targets for the three sources. -/
structure ToneGains where
  wind : ℚ
  shimmer : ℚ
  pulse : ℚ
deriving DecidableEq, Repr

/-- The `toneGains` table (`SoundscapeController.tsx`, lines 22-26). -/
def toneGains : Tone → ToneGains
  | .cold => { wind := 0.9, shimmer := 0.15, pulse := 0.2 }
  | .transition => { wind := 0.6, shimmer := 0.4, pulse := 0.45 }
  | .warm => { wind := 0.3, shimmer := 0.6, pulse := 0.8 }

/-- The `crunchPulse` term (`SoundscapeController.tsx`, lines 158-161).
`sinValue` abstracts the transcendental
`Math.sin(sceneProgress * Math.PI * 4)`; quantifying over every `sinValue`
covers every local progress value. -/
def crunchPulse (scene : SceneDescriptor) (sinValue : ℚ) : ℚ :=
  if scene.id = "ascent" ∨ scene.id = "summit" then
    0.35 + 0.4 * sinValue
  else
    0

/-- The shimmer gain target scheduled by the scene effect
(`SoundscapeController.tsx`, line 167). -/
def shimmerGainTarget (scene : SceneDescriptor) (sinValue : ℚ) : ℚ :=
  (toneGains scene.tone).shimmer + crunchPulse scene sinValue * 0.3

/-- The pulse gain target scheduled by the scene effect
(`SoundscapeController.tsx`, line 170). -/
def pulseGainTarget (scene : SceneDescriptor) (sinValue : ℚ) : ℚ :=
  (toneGains scene.tone).pulse + crunchPulse scene sinValue * 0.5

/-- The master-gain ramp scheduled once the audio nodes exist
(`SoundscapeController.tsx`, lines 132-146): the pair is
(target value, ramp time constant) passed to `setTargetAtTime`.  The
effect returns early while `nodesRef.current` is null, so this models the
behaviour after initialization. -/
def masterGainRamp (mute isPlaying : Bool) : ℚ × ℚ :=
  if mute || !isPlaying then (0.0001, 0.4) else (0.45, 0.2)

/-- Cumulative end of the head scene. -/
theorem cumulativeEnd_cons_zero (s : SceneDescriptor) (rest : List SceneDescriptor) :
    cumulativeEnd (s :: rest) 0 = s.duration := by
  simp [cumulativeEnd]

/-- Cumulative ends of a cons shift by the head's duration. -/
theorem cumulativeEnd_cons_succ (s : SceneDescriptor) (rest : List SceneDescriptor)
    (j : ℕ) :
    cumulativeEnd (s :: rest) (j + 1) = s.duration + cumulativeEnd rest j := by
  simp [cumulativeEnd, List.take_succ_cons]

/-- The loop never falls off the end of a non-empty scene list: it returns
`some` state (the `rest = []` disjunct catches the last scene). -/
theorem getSceneStateLoop_isSome (e : ℚ) (scenes : List SceneDescriptor) :
    scenes ≠ [] → ∀ (idx : ℤ) (acc : ℚ),
      ∃ st, getSceneStateLoop e scenes idx acc = some st := by
  induction scenes with
  | nil => intro h; exact absurd rfl h
  | cons scene rest ih =>
      intro _ idx acc
      by_cases hc : e < acc + scene.duration ∨ rest = []
      · refine ⟨{ index := idx
                  sceneElapsed := clampedElapsed e acc scene.duration
                  totalElapsed := e
                  progress :=
                    if 0 < scene.duration then
                      clampedElapsed e acc scene.duration / scene.duration
                    else 0 }, ?_⟩
        simp only [getSceneStateLoop]
        rw [if_pos hc]
      · have hrest : rest ≠ [] := fun hr => hc (Or.inr hr)
        obtain ⟨st, hst⟩ := ih hrest (idx + 1) (acc + scene.duration)
        refine ⟨st, ?_⟩
        simp only [getSceneStateLoop]
        rw [if_neg hc]
        exact hst

/-- The index returned by the loop lies between the starting counter and
the starting counter plus the number of remaining scenes. -/
theorem getSceneStateLoop_index_bounds (e : ℚ) (scenes : List SceneDescriptor) :
    ∀ (idx : ℤ) (acc : ℚ) (st : SceneState),
      getSceneStateLoop e scenes idx acc = some st →
      idx ≤ st.index ∧ st.index < idx + scenes.length := by
  induction scenes with
  | nil => intro idx acc st h; simp [getSceneStateLoop] at h
  | cons scene rest ih =>
      intro idx acc st h
      simp only [getSceneStateLoop] at h
      by_cases hc : e < acc + scene.duration ∨ rest = []
      · rw [if_pos hc] at h
        simp only [Option.some.injEq] at h
        subst h
        refine ⟨le_refl _, ?_⟩
        simp only [List.length_cons]
        omega
      · rw [if_neg hc] at h
        obtain ⟨h1, h2⟩ := ih (idx + 1) (acc + scene.duration) st h
        refine ⟨by omega, ?_⟩
        simp only [List.length_cons] at h2 ⊢
        omega

/-- Monotonicity of the loop's index in `elapsed`, for a common starting
counter and offset. -/
theorem getSceneStateLoop_index_mono (e1 e2 : ℚ) (h12 : e1 ≤ e2)
    (scenes : List SceneDescriptor) :
    ∀ (idx : ℤ) (acc : ℚ) (st1 st2 : SceneState),
      getSceneStateLoop e1 scenes idx acc = some st1 →
      getSceneStateLoop e2 scenes idx acc = some st2 →
      st1.index ≤ st2.index := by
  induction scenes with
  | nil => intro idx acc st1 st2 h1 _; simp [getSceneStateLoop] at h1
  | cons scene rest ih =>
      intro idx acc st1 st2 h1 h2
      simp only [getSceneStateLoop] at h1 h2
      by_cases hc2 : e2 < acc + scene.duration ∨ rest = []
      · have hc1 : e1 < acc + scene.duration ∨ rest = [] := by
          rcases hc2 with h | h
          · exact Or.inl (lt_of_le_of_lt h12 h)
          · exact Or.inr h
        rw [if_pos hc1] at h1
        rw [if_pos hc2] at h2
        simp only [Option.some.injEq] at h1 h2
        subst h1
        subst h2
        exact le_refl _
      · rw [if_neg hc2] at h2
        by_cases hc1 : e1 < acc + scene.duration ∨ rest = []
        · rw [if_pos hc1] at h1
          simp only [Option.some.injEq] at h1
          subst h1
          have hb := (getSceneStateLoop_index_bounds e2 rest (idx + 1)
            (acc + scene.duration) st2 h2).1
          simpa using le_trans (by omega : idx ≤ idx + 1) hb
        · rw [if_neg hc1] at h1
          exact ih (idx + 1) (acc + scene.duration) st1 st2 h1 h2

/-- Shape of any state produced by the loop: there is a scene at the
returned (relative) index whose clamped elapsed and guarded progress are
the returned fields. -/
theorem getSceneStateLoop_shape (e : ℚ) (scenes : List SceneDescriptor) :
    ∀ (idx : ℤ) (acc : ℚ) (st : SceneState),
      getSceneStateLoop e scenes idx acc = some st →
      ∃ (s : SceneDescriptor) (start : ℚ),
        scenes.get? (st.index - idx).toNat = some s ∧
        st.sceneElapsed = clampedElapsed e start s.duration ∧
        st.progress = (if 0 < s.duration then st.sceneElapsed / s.duration else 0) ∧
        st.totalElapsed = e := by
  induction scenes with
  | nil => intro idx acc st h; simp [getSceneStateLoop] at h
  | cons scene rest ih =>
      intro idx acc st h
      simp only [getSceneStateLoop] at h
      by_cases hc : e < acc + scene.duration ∨ rest = []
      · rw [if_pos hc] at h
        simp only [Option.some.injEq] at h
        subst h
        refine ⟨scene, acc, ?_, rfl, rfl, rfl⟩
        simp
      · rw [if_neg hc] at h
        obtain ⟨s, start, hget, hclamp, hprog, htot⟩ :=
          ih (idx + 1) (acc + scene.duration) st h
        have hidx : idx + 1 ≤ st.index :=
          (getSceneStateLoop_index_bounds e rest (idx + 1) (acc + scene.duration) st h).1
        refine ⟨s, start, ?_, hclamp, hprog, htot⟩
        have hk : (st.index - idx).toNat = (st.index - (idx + 1)).toNat + 1 := by omega
        rw [hk, List.get?_cons_succ]
        exact hget

/-- The loop returns the first scene whose cumulative end exceeds
`elapsed`, or the last scene: the cumulative end at the returned (relative)
index exceeds `elapsed` unless it is the last index, and every earlier
cumulative end is at most `elapsed`. -/
theorem getSceneStateLoop_first (e : ℚ) (scenes : List SceneDescriptor) :
    ∀ (idx : ℤ) (acc : ℚ) (st : SceneState),
      getSceneStateLoop e scenes idx acc = some st →
      (e < acc + cumulativeEnd scenes (st.index - idx).toNat
         ∨ (st.index - idx).toNat = scenes.length - 1) ∧
      ∀ j : ℕ, j < (st.index - idx).toNat → acc + cumulativeEnd scenes j ≤ e := by
  induction scenes with
  | nil => intro idx acc st h; simp [getSceneStateLoop] at h
  | cons scene rest ih =>
      intro idx acc st h
      simp only [getSceneStateLoop] at h
      by_cases hc : e < acc + scene.duration ∨ rest = []
      · rw [if_pos hc] at h
        simp only [Option.some.injEq] at h
        subst h
        constructor
        · rcases hc with h' | h'
          · left
            simpa [cumulativeEnd] using h'
          · right
            subst h'
            simp
        · intro j hj
          simp at hj
      · rw [if_neg hc] at h
        have hce : acc + scene.duration ≤ e := by
          by_contra hlt
          exact hc (Or.inl (not_le.mp hlt))
        have hrest : rest ≠ [] := fun hr => hc (Or.inr hr)
        obtain ⟨hfirst, hall⟩ := ih (idx + 1) (acc + scene.duration) st h
        have hidx : idx + 1 ≤ st.index :=
          (getSceneStateLoop_index_bounds e rest (idx + 1) (acc + scene.duration) st h).1
        have hk : (st.index - idx).toNat = (st.index - (idx + 1)).toNat + 1 := by omega
        constructor
        · rcases hfirst with h' | h'
          · left
            rw [hk, cumulativeEnd_cons_succ]
            linarith
          · right
            rw [hk]
            have hlen : 1 ≤ rest.length := by
              cases rest with
              | nil => exact absurd rfl hrest
              | cons a as => simp
            simp only [List.length_cons]
            omega
        · intro j hj
          rw [hk] at hj
          cases j with
          | zero =>
              rw [cumulativeEnd_cons_zero]
              linarith
          | succ j' =>
              rw [cumulativeEnd_cons_succ]
              have hj' : j' < (st.index - (idx + 1)).toNat := by omega
              have := hall j' hj'
              linarith

/-- For a non-empty scene list, `getSceneState` is the state produced by
the loop started at counter 0 and offset 0. -/
theorem getSceneState_eq_loop (scenes : List SceneDescriptor) (e : ℚ)
    (h : scenes ≠ []) :
    ∃ st, getSceneStateLoop e scenes 0 0 = some st ∧ getSceneState scenes e = st := by
  obtain ⟨st, hst⟩ := getSceneStateLoop_isSome e scenes h 0 0
  refine ⟨st, hst, ?_⟩
  simp only [getSceneState, hst, Option.getD_some]

/-- One loop step: when the current scene is not selected, the loop
recurses on the tail with an advanced counter and offset. -/
theorem getSceneStateLoop_step (e : ℚ) (scene : SceneDescriptor)
    (rest : List SceneDescriptor) (idx : ℤ) (acc : ℚ)
    (h : ¬(e < acc + scene.duration ∨ rest = [])) :
    getSceneStateLoop e (scene :: rest) idx acc =
      getSceneStateLoop e rest (idx + 1) (acc + scene.duration) := by
  simp only [getSceneStateLoop]
  rw [if_neg h]

/-- One loop step: when the current scene is selected (its cumulative end
exceeds `elapsed`, or it is the last scene), the loop returns it. -/
theorem getSceneStateLoop_head (e : ℚ) (scene : SceneDescriptor)
    (rest : List SceneDescriptor) (idx : ℤ) (acc : ℚ)
    (h : e < acc + scene.duration ∨ rest = []) :
    getSceneStateLoop e (scene :: rest) idx acc =
      some { index := idx
             sceneElapsed := clampedElapsed e acc scene.duration
             totalElapsed := e
             progress :=
               if 0 < scene.duration then
                 clampedElapsed e acc scene.duration / scene.duration
               else 0 } := by
  simp only [getSceneStateLoop]
  rw [if_pos h]

/-- When `elapsed` is at or past the remaining total, the loop lands on the
last scene with a fully clamped scene-elapsed. -/
theorem getSceneStateLoop_at_end (e : ℚ) (scenes : List SceneDescriptor) :
    ∀ (idx : ℤ) (acc : ℚ),
      (∀ s ∈ scenes, 0 ≤ s.duration) →
      scenes ≠ [] →
      acc + (scenes.map SceneDescriptor.duration).sum ≤ e →
      getSceneStateLoop e scenes idx acc =
        some { index := idx + scenes.length - 1
               sceneElapsed := ((scenes.getLast?).map SceneDescriptor.duration).getD 0
               totalElapsed := e
               progress :=
                 if 0 < ((scenes.getLast?).map SceneDescriptor.duration).getD 0
                 then 1 else 0 } := by
  induction scenes with
  | nil => intro idx acc _ hne _; exact absurd rfl hne
  | cons scene rest ih =>
      intro idx acc hnn _ hsum
      cases rest with
      | nil =>
          have hd : 0 ≤ scene.duration := hnn scene (by simp)
          have hsum' : acc + scene.duration ≤ e := by simpa using hsum
          have hcl : clampedElapsed e acc scene.duration = scene.duration := by
            rw [clampedElapsed, max_eq_left (by linarith)]
            exact min_eq_right (by linarith)
          simp only [getSceneStateLoop]
          rw [if_pos (Or.inr trivial)]
          refine congrArg some ?_
          simp only [SceneState.mk.injEq]
          refine ⟨by simp, by simp [hcl], trivial, ?_⟩
          have hg : ((([scene] : List SceneDescriptor).getLast?).map
              SceneDescriptor.duration).getD 0 = scene.duration := by simp
          rw [hg]
          by_cases h0 : 0 < scene.duration
          · rw [if_pos h0, if_pos h0, hcl, div_self (ne_of_gt h0)]
          · rw [if_neg h0, if_neg h0]
      | cons second tail =>
          have hd : 0 ≤ scene.duration := hnn scene (by simp)
          have hrest_nonneg :
              0 ≤ (((second :: tail).map SceneDescriptor.duration)).sum := by
            apply List.sum_nonneg
            intro x hx
            obtain ⟨s, hs, rfl⟩ := List.mem_map.mp hx
            exact hnn s (List.mem_cons_of_mem _ hs)
          have hsum' : acc + scene.duration +
              ((second :: tail).map SceneDescriptor.duration).sum ≤ e := by
            simp only [List.map_cons, List.sum_cons] at hsum ⊢
            linarith
          have hnotlt : ¬(e < acc + scene.duration ∨ (second :: tail) = []) := by
            refine not_or.mpr ⟨not_lt.mpr ?_, by simp⟩
            linarith
          rw [getSceneStateLoop_step e scene (second :: tail) idx acc hnotlt]
          rw [ih (idx + 1) (acc + scene.duration)
            (fun s hs => hnn s (List.mem_cons_of_mem _ hs)) (by simp) (by linarith)]
          refine congrArg some ?_
          simp only [SceneState.mk.injEq]
          refine ⟨?_, by simp, trivial, by simp⟩
          simp only [List.length_cons]
          push_cast
          ring

/-- C2: the Scene Resolver satisfies the boundary conditions: at
`elapsed = 0` it returns index 0 with progress 0, and at
`elapsed = TOTAL_DURATION_SECONDS` it returns the last scene's index with
progress 1 (inclusive terminal boundary). -/
theorem sceneResolver_boundary :
    (getSceneState SCENE_SEQUENCE 0).index = 0 ∧
    (getSceneState SCENE_SEQUENCE 0).progress = 0 ∧
    (getSceneState SCENE_SEQUENCE TOTAL_DURATION_SECONDS).index =
      (SCENE_SEQUENCE.length : ℤ) - 1 ∧
    (getSceneState SCENE_SEQUENCE TOTAL_DURATION_SECONDS).progress = 1 := by
  have h0 : getSceneState SCENE_SEQUENCE 0 =
      { index := 0, sceneElapsed := 0, totalElapsed := 0, progress := 0 } := by
    simp only [getSceneState, getSceneStateLoop, SCENE_SEQUENCE, clampedElapsed]
    norm_num [min_def, max_def, List.cons_ne_nil]
  have h60 : getSceneState SCENE_SEQUENCE TOTAL_DURATION_SECONDS =
      { index := 7, sceneElapsed := 7, totalElapsed := 60, progress := 1 } := by
    simp only [getSceneState, getSceneStateLoop, SCENE_SEQUENCE, clampedElapsed,
      TOTAL_DURATION_SECONDS]
    norm_num [min_def, max_def, List.cons_ne_nil]
  rw [h0, h60]
  refine ⟨rfl, rfl, ?_, rfl⟩
  simp [SCENE_SEQUENCE]

/-- C4: once elapsed has reached the total duration, a further clock
callback with a nonnegative timestamp delta leaves elapsed unchanged (the
update clamps to the total), and the phase is `complete`; moreover no step
ever drives elapsed above the total duration. -/
theorem clockStep_idempotent_at_completion (m : PlaybackModel) (delta : ℚ)
    (hm : m.elapsed = TOTAL_DURATION_SECONDS) (hd : 0 ≤ delta) :
    (stepClock m delta).elapsed = m.elapsed ∧
    (stepClock m delta).phase = PlaybackState.complete ∧
    ∀ (m' : PlaybackModel) (d' : ℚ),
      (stepClock m' d').elapsed ≤ TOTAL_DURATION_SECONDS := by
  have hnext : min (TOTAL_DURATION_SECONDS + delta) TOTAL_DURATION_SECONDS =
      TOTAL_DURATION_SECONDS := min_eq_right (by linarith)
  refine ⟨?_, ?_, ?_⟩
  · simp only [stepClock, hm, hnext]
  · simp only [stepClock, hm, hnext, if_pos (le_refl TOTAL_DURATION_SECONDS)]
  · intro m' d'
    simp only [stepClock]
    exact min_le_right _ _

/-- C4 witness at the concrete completed state (elapsed 60, delta 1). -/
theorem clockStep_idempotent_at_completion_witness :
    (stepClock { phase := .complete, elapsed := 60 } 1).elapsed = 60 ∧
    (stepClock { phase := .complete, elapsed := 60 } 1).phase =
      PlaybackState.complete ∧
    ∀ (m' : PlaybackModel) (d' : ℚ),
      (stepClock m' d').elapsed ≤ TOTAL_DURATION_SECONDS :=
  clockStep_idempotent_at_completion { phase := .complete, elapsed := 60 } 1
    rfl (by norm_num)

/-- C5: every transport command is a total function on the playback state:
`handleStart` and `handleReplay` always reset elapsed to 0 and set the
phase to running; the pause/resume toggle moves running to idle, moves
idle to running only when elapsed is below the total duration, and leaves
the state unchanged in every other case, including phase `complete`. -/
theorem transportCommands_total (m : PlaybackModel) :
    (handleStart m).elapsed = 0 ∧
    (handleStart m).phase = PlaybackState.running ∧
    (handleReplay m).elapsed = 0 ∧
    (handleReplay m).phase = PlaybackState.running ∧
    (m.phase = PlaybackState.running →
      handlePauseToggle m = { m with phase := PlaybackState.idle }) ∧
    (m.phase = PlaybackState.idle → m.elapsed < TOTAL_DURATION_SECONDS →
      handlePauseToggle m = { m with phase := PlaybackState.running }) ∧
    (m.phase = PlaybackState.idle → ¬m.elapsed < TOTAL_DURATION_SECONDS →
      handlePauseToggle m = m) ∧
    (m.phase = PlaybackState.complete → handlePauseToggle m = m) := by
  refine ⟨rfl, rfl, rfl, rfl, ?_, ?_, ?_, ?_⟩
  · intro h
    simp [handlePauseToggle, h]
  · intro h hlt
    simp [handlePauseToggle, h, hlt]
  · intro h hge
    simp [handlePauseToggle, h, hge]
  · intro h
    simp [handlePauseToggle, h]

/-- C5 witness at the concrete completed state: starting resets elapsed and
the pause toggle is a no-op on a complete phase. -/
theorem transportCommands_total_witness :
    (handleStart { phase := PlaybackState.complete, elapsed := 60 }).elapsed = 0 ∧
    handlePauseToggle { phase := PlaybackState.complete, elapsed := 60 } =
      { phase := PlaybackState.complete, elapsed := 60 } :=
  ⟨(transportCommands_total { phase := .complete, elapsed := 60 }).1,
   (transportCommands_total { phase := .complete, elapsed := 60 }).2.2.2.2.2.2.2 rfl⟩

/-- C6: the crunch-pulse term is zero for every scene whose id is neither
"ascent" nor "summit", at every value of the sinusoid (hence at every local
progress value), so the shimmer and pulse gain targets reduce to the plain
per-tone table entries there. -/
theorem crunchPulse_zero_off_ascent_summit (scene : SceneDescriptor)
    (sinValue : ℚ) (h1 : scene.id ≠ "ascent") (h2 : scene.id ≠ "summit") :
    crunchPulse scene sinValue = 0 ∧
    shimmerGainTarget scene sinValue = (toneGains scene.tone).shimmer ∧
    pulseGainTarget scene sinValue = (toneGains scene.tone).pulse := by
  have hz : crunchPulse scene sinValue = 0 := by
    simp [crunchPulse, h1, h2]
  refine ⟨hz, ?_, ?_⟩
  · simp [shimmerGainTarget, hz]
  · simp [pulseGainTarget, hz]

/-- C6 witness at a concrete cold scene. -/
theorem crunchPulse_zero_off_ascent_summit_witness :
    crunchPulse { id := "predawn", tone := .cold, duration := 7 } 1 = 0 ∧
    shimmerGainTarget { id := "predawn", tone := .cold, duration := 7 } 1 =
      (toneGains Tone.cold).shimmer ∧
    pulseGainTarget { id := "predawn", tone := .cold, duration := 7 } 1 =
      (toneGains Tone.cold).pulse :=
  crunchPulse_zero_off_ascent_summit { id := "predawn", tone := .cold, duration := 7 }
    1 (by simp) (by simp)

/-- C7: the scene catalog contains exactly 8 scene descriptors and the sum
of their durations equals the published total duration constant, which is
60. -/
theorem sceneCatalog_count_and_total :
    SCENE_SEQUENCE.length = 8 ∧
    (SCENE_SEQUENCE.map SceneDescriptor.duration).sum = TOTAL_DURATION_SECONDS ∧
    TOTAL_DURATION_SECONDS = 60 := by
  refine ⟨?_, ?_, rfl⟩
  · simp [SCENE_SEQUENCE]
  · norm_num [SCENE_SEQUENCE, TOTAL_DURATION_SECONDS]

/-- C9: once the audio nodes exist, the master gain ramp targets
near-silence (0.0001) when muted or not playing and the audible level
(0.45) otherwise, and the fade-out time constant (0.4) is strictly larger
than the fade-in time constant (0.2). -/
theorem masterGain_ramp_targets (mute isPlaying : Bool) :
    ((mute = true ∨ isPlaying = false) →
      masterGainRamp mute isPlaying = (0.0001, 0.4)) ∧
    (mute = false → isPlaying = true →
      masterGainRamp mute isPlaying = (0.45, 0.2)) ∧
    (masterGainRamp false false).2 > (masterGainRamp false true).2 := by
  refine ⟨?_, ?_, ?_⟩
  · intro h
    rcases h with h | h <;> subst h <;> simp [masterGainRamp]
  · intro h1 h2
    subst h1
    subst h2
    simp [masterGainRamp]
  · simp only [masterGainRamp]
    norm_num

/-- C9 witness at concrete mute/play flags. -/
theorem masterGain_ramp_targets_witness :
    masterGainRamp true false = (0.0001, 0.4) ∧
    masterGainRamp false true = (0.45, 0.2) ∧
    (masterGainRamp false false).2 > (masterGainRamp false true).2 :=
  ⟨(masterGain_ramp_targets true false).1 (Or.inl rfl),
   (masterGain_ramp_targets false true).2.1 rfl rfl,
   (masterGain_ramp_targets false true).2.2⟩

/-- C1: for every elapsed in `[0, total]` the resolver returns exactly one
active scene index — the first whose cumulative end exceeds `elapsed`
(every earlier cumulative end is at most `elapsed`), or the last scene
(index 7) otherwise — and the returned `sceneElapsed` is at most that
scene's duration. -/
theorem sceneResolver_unique_active_index (e : ℚ)
    (h0 : 0 ≤ e) (h1 : e ≤ TOTAL_DURATION_SECONDS) :
    0 ≤ (getSceneState SCENE_SEQUENCE e).index ∧
    (getSceneState SCENE_SEQUENCE e).index < 8 ∧
    (e < cumulativeEnd SCENE_SEQUENCE (getSceneState SCENE_SEQUENCE e).index.toNat ∨
      (getSceneState SCENE_SEQUENCE e).index.toNat = 7) ∧
    (∀ j : ℕ, j < (getSceneState SCENE_SEQUENCE e).index.toNat →
      cumulativeEnd SCENE_SEQUENCE j ≤ e) ∧
    ∀ s : SceneDescriptor,
      SCENE_SEQUENCE.get? (getSceneState SCENE_SEQUENCE e).index.toNat = some s →
      (getSceneState SCENE_SEQUENCE e).sceneElapsed ≤ s.duration := by
  obtain ⟨st, hloop, heq⟩ :=
    getSceneState_eq_loop SCENE_SEQUENCE e (by simp [SCENE_SEQUENCE])
  rw [heq]
  obtain ⟨hlb, hub⟩ := getSceneStateLoop_index_bounds e SCENE_SEQUENCE 0 0 st hloop
  obtain ⟨hfirst, hall⟩ := getSceneStateLoop_first e SCENE_SEQUENCE 0 0 st hloop
  obtain ⟨s', start, hget, hclamp, hprog, htot⟩ :=
    getSceneStateLoop_shape e SCENE_SEQUENCE 0 0 st hloop
  simp only [sub_zero, zero_add] at hfirst hall hget
  refine ⟨hlb, ?_, ?_, hall, ?_⟩
  · simpa [SCENE_SEQUENCE] using hub
  · rcases hfirst with h' | h'
    · exact Or.inl h'
    · refine Or.inr ?_
      rw [h']
      simp [SCENE_SEQUENCE]
  · intro s hs
    rw [hget] at hs
    obtain rfl : s' = s := by injection hs
    rw [hclamp]
    exact min_le_right _ _

/-- C1 witness at `elapsed = 10`. -/
theorem sceneResolver_unique_active_index_witness :
    0 ≤ (getSceneState SCENE_SEQUENCE 10).index ∧
    (getSceneState SCENE_SEQUENCE 10).index < 8 ∧
    (10 < cumulativeEnd SCENE_SEQUENCE (getSceneState SCENE_SEQUENCE 10).index.toNat ∨
      (getSceneState SCENE_SEQUENCE 10).index.toNat = 7) ∧
    (∀ j : ℕ, j < (getSceneState SCENE_SEQUENCE 10).index.toNat →
      cumulativeEnd SCENE_SEQUENCE j ≤ 10) ∧
    ∀ s : SceneDescriptor,
      SCENE_SEQUENCE.get? (getSceneState SCENE_SEQUENCE 10).index.toNat = some s →
      (getSceneState SCENE_SEQUENCE 10).sceneElapsed ≤ s.duration :=
  sceneResolver_unique_active_index 10 (by norm_num)
    (by norm_num [TOTAL_DURATION_SECONDS])

/-- C3: the resolved scene index is monotone in elapsed over `[0, total]`. -/
theorem sceneResolver_index_monotone (e1 e2 : ℚ) (h0 : 0 ≤ e1) (h12 : e1 ≤ e2)
    (h2 : e2 ≤ TOTAL_DURATION_SECONDS) :
    (getSceneState SCENE_SEQUENCE e1).index ≤
      (getSceneState SCENE_SEQUENCE e2).index := by
  obtain ⟨st1, hl1, he1⟩ :=
    getSceneState_eq_loop SCENE_SEQUENCE e1 (by simp [SCENE_SEQUENCE])
  obtain ⟨st2, hl2, he2⟩ :=
    getSceneState_eq_loop SCENE_SEQUENCE e2 (by simp [SCENE_SEQUENCE])
  rw [he1, he2]
  exact getSceneStateLoop_index_mono e1 e2 h12 SCENE_SEQUENCE 0 0 st1 st2 hl1 hl2

/-- C3 witness at elapsed values 3 and 30. -/
theorem sceneResolver_index_monotone_witness :
    (getSceneState SCENE_SEQUENCE 3).index ≤
      (getSceneState SCENE_SEQUENCE 30).index :=
  sceneResolver_index_monotone 3 30 (by norm_num) (by norm_num)
    (by norm_num [TOTAL_DURATION_SECONDS])

/-- C8: the division computing local progress is guarded: whenever the
scene at the resolved index has duration 0, the resolver returns progress
0 instead of dividing by zero, for any scene list and any elapsed. -/
theorem sceneResolver_guarded_division (scenes : List SceneDescriptor) (e : ℚ)
    (s : SceneDescriptor)
    (hs : scenes.get? (getSceneState scenes e).index.toNat = some s)
    (hd : s.duration = 0) :
    (getSceneState scenes e).progress = 0 := by
  cases scenes with
  | nil => simp [getSceneState, getSceneStateLoop] at hs
  | cons scene rest =>
      obtain ⟨st, hloop, heq⟩ := getSceneState_eq_loop (scene :: rest) e (by simp)
      rw [heq] at hs ⊢
      obtain ⟨s', start, hget, hclamp, hprog, htot⟩ :=
        getSceneStateLoop_shape e (scene :: rest) 0 0 st hloop
      rw [sub_zero] at hget
      rw [hget] at hs
      obtain rfl : s' = s := by injection hs
      rw [hprog, hd]
      simp

/-- C8 witness: a zero-duration scene yields progress 0 at elapsed 3. -/
theorem sceneResolver_guarded_division_witness :
    (getSceneState [{ id := "still", tone := Tone.cold, duration := 0 }] 3).progress
      = 0 :=
  sceneResolver_guarded_division
    [{ id := "still", tone := Tone.cold, duration := 0 }] 3
    { id := "still", tone := Tone.cold, duration := 0 }
    (by simp [getSceneState, getSceneStateLoop]) rfl

/-- C10: the resolver is total over every rational elapsed input: a
negative elapsed yields index 0 with sceneElapsed 0 and progress 0, and an
elapsed at or beyond the total duration yields the last scene's index with
its full duration as sceneElapsed and progress clamped to 1. -/
theorem sceneResolver_total_out_of_range (e : ℚ) :
    (e < 0 → getSceneState SCENE_SEQUENCE e =
      { index := 0, sceneElapsed := 0, totalElapsed := e, progress := 0 }) ∧
    (TOTAL_DURATION_SECONDS ≤ e →
      (getSceneState SCENE_SEQUENCE e).index = 7 ∧
      (getSceneState SCENE_SEQUENCE e).sceneElapsed = 7 ∧
      (getSceneState SCENE_SEQUENCE e).progress = 1) := by
  constructor
  · intro h
    have hcl : clampedElapsed e 0 7 = 0 := by
      rw [clampedElapsed, max_eq_right (by linarith : e - 0 ≤ 0)]
      exact min_eq_left (by norm_num)
    have hhead : getSceneStateLoop e SCENE_SEQUENCE 0 0 =
        some { index := 0
               sceneElapsed := clampedElapsed e 0 7
               totalElapsed := e
               progress := if (0:ℚ) < 7 then clampedElapsed e 0 7 / 7 else 0 } :=
      getSceneStateLoop_head e _ _ 0 0 (Or.inl (by linarith : e < (0:ℚ) + 7))
    simp only [getSceneState, hhead, Option.getD_some, SceneState.mk.injEq]
    refine ⟨trivial, hcl, trivial, ?_⟩
    rw [if_pos (by norm_num : (0:ℚ) < 7), hcl]
    norm_num
  · intro h
    have h60 : (60 : ℚ) ≤ e := by
      simpa [TOTAL_DURATION_SECONDS] using h
    have hsum : 0 + (SCENE_SEQUENCE.map SceneDescriptor.duration).sum ≤ e := by
      norm_num [SCENE_SEQUENCE]
      linarith
    have hend := getSceneStateLoop_at_end e SCENE_SEQUENCE 0 0
      (by intro s hs; fin_cases hs <;> norm_num) (by simp [SCENE_SEQUENCE]) hsum
    rw [getSceneState, hend, Option.getD_some]
    refine ⟨by simp [SCENE_SEQUENCE], by norm_num [SCENE_SEQUENCE], ?_⟩
    norm_num [SCENE_SEQUENCE]

/-- C10 witness at elapsed -1 and 100. -/
theorem sceneResolver_total_out_of_range_witness :
    getSceneState SCENE_SEQUENCE (-1) =
      { index := 0, sceneElapsed := 0, totalElapsed := -1, progress := 0 } ∧
    (getSceneState SCENE_SEQUENCE 100).index = 7 ∧
    (getSceneState SCENE_SEQUENCE 100).sceneElapsed = 7 ∧
    (getSceneState SCENE_SEQUENCE 100).progress = 1 :=
  ⟨(sceneResolver_total_out_of_range (-1)).1 (by norm_num),
   (sceneResolver_total_out_of_range 100).2 (by norm_num [TOTAL_DURATION_SECONDS])⟩
